import Mathlib

/-!
Verification of the host-profile editor (`src/main.rs`).

The program's strings are modelled as `List Char` (`Str`); the line-oriented
codec (`HostEntry::parse_ssh_config`, `HostEntry::write_ssh_config`), the
editor state machine of `main`'s event loop, and the `icacls`
permission-tightening sequence are translated below.  External effects
(file writes, subprocess launches) are represented by an explicit effect
list and an environment record supplying subprocess outcomes.
-/

set_option maxHeartbeats 1000000

abbrev Str := List Char

/-- Unicode `White_Space` predicate, as used by Rust's `str::trim` /
`char::is_whitespace`. -/
def isWs (c : Char) : Bool :=
  c.val = 0x09 || c.val = 0x0a || c.val = 0x0b || c.val = 0x0c || c.val = 0x0d ||
  c.val = 0x20 || c.val = 0x85 || c.val = 0xa0 || c.val = 0x1680 ||
  (0x2000 ≤ c.val && c.val ≤ 0x200a) ||
  c.val = 0x2028 || c.val = 0x2029 || c.val = 0x202f || c.val = 0x205f ||
  c.val = 0x3000

/-- Rust `str::trim_start` on the character list. -/
def trimLeft (s : Str) : Str := s.dropWhile isWs

/-- Rust `str::trim_end` on the character list. -/
def trimRight (s : Str) : Str := (s.reverse.dropWhile isWs).reverse

/-- Rust `str::trim`. -/
def trim (s : Str) : Str := trimRight (trimLeft s)

/-- Rust `str::starts_with` for a string pattern. -/
def isPref : Str → Str → Bool
  | [], _ => true
  | _ :: _, [] => false
  | p :: ps, c :: cs => p = c && isPref ps cs

/-- Rust `str::strip_prefix` for a string pattern. -/
def stripPref : Str → Str → Option Str
  | [], s => some s
  | _ :: _, [] => none
  | p :: ps, c :: cs => if p = c then stripPref ps cs else none

/-- The trailing `\r` removal (`strip_suffix('\r')`) Rust's `str::lines`
applies to each complete (`\n`-terminated) line. -/
def stripCR (l : Str) : Str :=
  if l.getLast? = some '\r' then l.dropLast else l

/-- Worker for `rustLines`: `acc` is the portion of the current line read so
far. -/
def linesGo : Str → Str → List Str
  | [], acc => if acc = [] then [] else [acc]
  | c :: rest, acc =>
    if c = '\n' then stripCR acc :: linesGo rest []
    else linesGo rest (acc ++ [c])

/-- Rust `str::lines`: split at `\n`, dropping a `\r` that precedes a `\n`;
a final segment is produced only if non-empty. -/
def rustLines (s : Str) : List Str := linesGo s []

/-- The `HostEntry` struct of the source (its full field set). -/
structure HostEntry where
  name : Str
  hostname : Option Str
  user : Option Str
  port : Option Str
  identity_file : Option Str
  password : Option Str
  deriving DecidableEq

example : trim "  ab ".data = "ab".data := by decide
example : rustLines "a\n\nb".data = ["a".data, [], "b".data] := by decide
example : rustLines "a\r\nb\n".data = ["a".data, "b".data] := by decide
example : stripPref "Host".data "Host box".data = some " box".data := by decide

/-- The fresh entry built at a `Host` declaration line: all optional fields
absent. -/
def mkHostEntry (name : Str) : HostEntry :=
  { name := name, hostname := none, user := none, port := none,
    identity_file := none, password := none }

/-- One step of the keyword chain of `parse_ssh_config`'s `else`-branch:
the trimmed line `t` is matched against the field-keyword prefixes in the
source's order; the first match assigns the trimmed remainder. -/
def updateEntry (e : HostEntry) (t : Str) : HostEntry :=
  match stripPref "HostName".data t with
  | some rest => { e with hostname := some (trim rest) }
  | none =>
  match stripPref "User".data t with
  | some rest => { e with user := some (trim rest) }
  | none =>
  match stripPref "Port".data t with
  | some rest => { e with port := some (trim rest) }
  | none =>
  match stripPref "IdentityFile".data t with
  | some rest => { e with identity_file := some (trim rest) }
  | none =>
  match stripPref "Password".data t with
  | some rest => { e with password := some (trim rest) }
  | none =>
  match stripPref "# Password".data t with
  | some rest => { e with password := some (trim rest) }
  | none => e

/-- Flushing helper: `current.take()` pushed into the output. -/
def optList : Option HostEntry → List HostEntry
  | some e => [e]
  | none => []

/-- The line loop of `HostEntry::parse_ssh_config`, with the source's
`.unwrap()` on `strip_prefix("Host")` modelled as a possible `none`
(a panic).  `cur` is the `current` entry under construction; the entry
still present when input ends is flushed. -/
def parseLinesE : List Str → Option HostEntry → Option (List HostEntry)
  | [], cur => some (optList cur)
  | l :: ls, cur =>
    let t := trim l
    if isPref "Host ".data t then
      match stripPref "Host".data t with
      | none => none
      | some r =>
        (parseLinesE ls (some (mkHostEntry (trim r)))).map
          (fun hs => optList cur ++ hs)
    else
      match cur with
      | none => parseLinesE ls none
      | some e => parseLinesE ls (some (updateEntry e t))

/-- Total twin of `parseLinesE` (the `.unwrap()` read as the 4-character
drop it performs when it succeeds); `parseLinesE_eq_total` below shows the
two agree, i.e. the unwrap never panics. -/
def parseLinesT : List Str → Option HostEntry → List HostEntry
  | [], cur => optList cur
  | l :: ls, cur =>
    let t := trim l
    if isPref "Host ".data t then
      optList cur ++ parseLinesT ls (some (mkHostEntry (trim (t.drop 4))))
    else
      match cur with
      | none => parseLinesT ls none
      | some e => parseLinesT ls (some (updateEntry e t))

/-- `HostEntry::parse_ssh_config`: `none` models a panic (never happens,
see `parse_total`). -/
def parse_ssh_config (s : Str) : Option (List HostEntry) :=
  parseLinesE (rustLines s) none

/-- The optional serialized segment for one field: the `if let Some(val)`
blocks of `HostEntry::write_ssh_config`. -/
def optSeg (pre : Str) : Option Str → Str
  | some v => pre ++ v ++ ['\n']
  | none => []

/-- The text `HostEntry::write_ssh_config` pushes for one host: the `Host`
line, one line per set field in the source's order, then a blank line. -/
def hostBlock (h : HostEntry) : Str :=
  ("Host ".data ++ h.name ++ ['\n']) ++
    (optSeg "    HostName ".data h.hostname ++
      (optSeg "    User ".data h.user ++
        (optSeg "    Port ".data h.port ++
          (optSeg "    IdentityFile ".data h.identity_file ++
            (optSeg "    # Password ".data h.password ++ ['\n'])))))

/-- The full string `HostEntry::write_ssh_config` builds in `out` and then
writes to the config path (the file write itself is the I/O boundary). -/
def write_ssh_config_text (hosts : List HostEntry) : Str :=
  hosts.foldl (fun out h => out ++ hostBlock h) []

/-- The worked example from the format documentation: `Host box` with a
hostname and a user. -/
def boxEntry : HostEntry :=
  { name := "box".data, hostname := some "1.2.3.4".data,
    user := some "bob".data, port := none, identity_file := none,
    password := none }

example :
    write_ssh_config_text [boxEntry] =
      "Host box\n    HostName 1.2.3.4\n    User bob\n\n".data := by decide

example :
    parse_ssh_config "Host box\n    HostName 1.2.3.4\n    User bob\n\n".data =
      some [boxEntry] := by decide

example :
    parse_ssh_config "junk\nHost a\nUsername alice\nPorto 22\n".data =
      some [{ mkHostEntry "a".data with
                user := some "name alice".data, port := some "o 22".data }] := by
  decide


/-! ## The editor state machine of `main`'s event loop -/

/-- The `crossterm` key codes the event loop inspects. -/
inductive Key where
  | enter | esc | tab | backspace | up | down
  | char (c : Char)
  | other
  deriving DecidableEq

/-- The `EditState` struct (buffer host, field cursor, and the unused
`field_values` vector). -/
structure EditState where
  host : HostEntry
  field_index : Nat
  field_values : List Str
  deriving DecidableEq

/-- The `AppState` struct. -/
structure AppState where
  hosts : List HostEntry
  selected : Nat
  lastKey : Option Key
  lastKeyTime : Option Nat
  edit_mode : Option EditState
  status_message : Option Str
  deriving DecidableEq

/-- `AppState::new`. -/
def AppState.new (hosts : List HostEntry) : AppState :=
  { hosts := hosts, selected := 0, lastKey := none, lastKeyTime := none,
    edit_mode := none, status_message := none }

/-- The outcome of one external `icacls` invocation, as seen through
`std::process::Command::output()`: either a completed process (exit
success flag, exit code, stdout, stderr) or a spawn error. -/
inductive CmdRes where
  | ok (success : Bool) (code : Option Int) (stdout stderr : Str)
  | err (msg : Str)

/-- The event loop's environment: the discarded result of the config-file
write, the outcome of the i-th external `icacls` invocation, and the
`USERNAME` variable. -/
structure Env where
  persistOk : Bool
  cmdRes : Nat → CmdRes
  username : Str

/-- Observable external effects of one handled key. -/
inductive Eff where
  | persist (hosts : List HostEntry)
  | launch (name : Str)
  | quit
  deriving DecidableEq

/-- `pop` of the last character (Rust `String::pop`; no-op on empty). -/
def strPop (s : Str) : Str := s.dropLast

/-- `get_edit_field_mut` followed by the caller's mutation `f`: field 0 is
the name; fields 1–5 are the optionals, materialised as an empty string
when absent; any other index is a no-op (`if let Some(val)` fails). -/
def applyField (h : HostEntry) (idx : Nat) (f : Str → Str) : HostEntry :=
  match idx with
  | 0 => { h with name := f h.name }
  | 1 => { h with hostname := some (f (h.hostname.getD [])) }
  | 2 => { h with user := some (f (h.user.getD [])) }
  | 3 => { h with port := some (f (h.port.getD [])) }
  | 4 => { h with identity_file := some (f (h.identity_file.getD [])) }
  | 5 => { h with password := some (f (h.password.getD [])) }
  | _ => h

/-- The default `HostEntry` used to model the (in-bounds) `hosts[selected]`
indexing. -/
def defEntry : HostEntry := mkHostEntry []

/-- The fresh buffer of the `'n'` (add new host) action. -/
def newHost : HostEntry := mkHostEntry "new-host".data

/-! ## The `icacls` permission-tightening sequence (`'k'` handler) -/

/-- Rust `Debug` escaping of one character inside a quoted `&str`. -/
def escDbg (c : Char) : Str :=
  if c = '\\' then ['\\', '\\']
  else if c = '"' then ['\\', '"']
  else if c = '\n' then ['\\', 'n']
  else [c]

/-- Rust `Debug` of a `&str`: quoted and escaped. -/
def dbgStr (s : Str) : Str := ['"'] ++ (s.map escDbg).flatten ++ ['"']

/-- Rust `Debug` of the `Vec<&str>` argument vector, as `format!("{:?}")`
prints it. -/
def dbgArgs (args : List Str) : Str :=
  ['['] ++ (", ".data).intercalate (args.map dbgStr) ++ [']']

/-- Decimal rendering of the exit code (`unwrap_or(-1)` already applied). -/
def intStr (i : Int) : Str := (toString i).data

/-- The fixed `icacls` argument lists, in the source's order. -/
def permCmds (grantArg : Str) : List (List Str) :=
  [ ["/reset".data],
    ["/inheritance:r".data],
    ["/remove".data, "NT AUTHORITY\\Authenticated Users".data],
    ["/remove".data, "BUILTIN\\Users".data],
    ["/remove".data, "Everyone".data],
    ["/grant:r".data, grantArg] ]

/-- `full_output` header pushed for each invocation. -/
def cmdHeader (args : List Str) : Str := "> icacls ".data ++ dbgArgs args ++ ['\n']

/-- The conditional `stdout:` section of `full_output`. -/
def stdoutChunk (s : Str) : Str :=
  if s = [] then [] else "stdout:\n".data ++ s ++ ['\n']

/-- The conditional `stderr:` section of `full_output`. -/
def stderrChunk (s : Str) : Str :=
  if s = [] then [] else "stderr:\n".data ++ s ++ ['\n']

/-- The failure message for a completed but unsuccessful invocation. -/
def failOkMsg (args : List Str) (code : Option Int) (fullOut : Str) : Str :=
  "❌ icacls ".data ++ dbgArgs args ++ " failed with code ".data ++
    intStr (code.getD (-1)) ++ ['\n'] ++ fullOut

/-- The failure message when the subprocess could not be run at all. -/
def failErrMsg (args : List Str) (e : Str) (fullOut : Str) : Str :=
  "❌ Failed to run icacls ".data ++ dbgArgs args ++ ": ".data ++ e ++
    ['\n'] ++ fullOut

/-- The `for args in cmds` loop of the `'k'` handler.  `i` counts the
invocations issued so far (the environment supplies the outcome of the
`i`-th one); `acc` is `full_output`.  Returns the final `full_output`,
the `failed` message if any, and the number of operations attempted. -/
def icaclsSeq (env : Nat → CmdRes) : List (List Str) → Nat → Str →
    Str × Option Str × Nat
  | [], i, acc => (acc, none, i)
  | args :: rest, i, acc =>
    match env i with
    | .ok success code so se =>
      let acc2 := acc ++ cmdHeader args ++ stdoutChunk so ++ stderrChunk se
      if success then icaclsSeq env rest (i + 1) acc2
      else (acc2, some (failOkMsg args code acc2), i + 1)
    | .err e => (acc, some (failErrMsg args e acc), i + 1)

/-- The status message the `'k'` handler stores: the failure message if an
operation failed, otherwise the success banner over the combined output. -/
def permStatus (cmdRes : Nat → CmdRes) (idf username : Str) : Str :=
  let grantArg := username ++ ":R".data
  let r := icaclsSeq cmdRes (permCmds grantArg) 0 []
  match r.2.1 with
  | some m => m
  | none => "✔ Permissions fixed for ".data ++ idf ++ ['\n'] ++ r.1

/-! ## Key handling -/

/-- One handled (post-debounce) key event: the body of the
`if allow` block of the event loop, as a pure state transition plus a
list of external effects. -/
def handle (env : Env) (app : AppState) (k : Key) : AppState × List Eff :=
  match app.edit_mode with
  | some edit =>
    match k with
    | .esc => ({ app with edit_mode := none }, [])
    | .enter =>
      -- the discarded `io::Result` of `HostEntry::write_ssh_config`
      let _saveResult := env.persistOk
      if app.selected < app.hosts.length then
        let hosts := app.hosts.set app.selected edit.host
        ({ app with hosts := hosts, edit_mode := none }, [Eff.persist hosts])
      else
        let hosts := app.hosts ++ [edit.host]
        ({ app with hosts := hosts, selected := hosts.length - 1,
                    edit_mode := none }, [Eff.persist hosts])
    | .tab =>
      let e2 := { edit with field_index := (edit.field_index + 1) % 6 }
      ({ app with edit_mode := some e2 }, [])
    | .down =>
      let e2 := { edit with field_index := (edit.field_index + 1) % 6 }
      ({ app with edit_mode := some e2 }, [])
    | .up =>
      let i2 := if edit.field_index = 0 then 5 else edit.field_index - 1
      let e2 := { edit with field_index := i2 }
      ({ app with edit_mode := some e2 }, [])
    | .backspace =>
      let e2 := { edit with host := applyField edit.host edit.field_index strPop }
      ({ app with edit_mode := some e2 }, [])
    | .char c =>
      let e2 := { edit with host := applyField edit.host edit.field_index (fun s => s ++ [c]) }
      ({ app with edit_mode := some e2 }, [])
    | _ => (app, [])
  | none =>
    match k with
    | .enter =>
      if app.hosts.length ≠ 0 then
        (app, [Eff.launch (app.hosts.getD app.selected defEntry).name, Eff.quit])
      else (app, [])
    | .char c =>
      if c = 'q' then (app, [Eff.quit])
      else if c = 'e' then
        if app.hosts.length ≠ 0 then
          let e2 : EditState :=
            { host := app.hosts.getD app.selected defEntry,
              field_index := 0, field_values := [] }
          ({ app with edit_mode := some e2 }, [])
        else (app, [])
      else if c = 'n' then
        let e2 : EditState := { host := newHost, field_index := 0, field_values := [] }
        ({ app with edit_mode := some e2 }, [])
      else if c = 'k' then
        if app.hosts.length ≠ 0 then
          match (app.hosts.getD app.selected defEntry).identity_file with
          | some idf =>
            ({ app with status_message := some (permStatus env.cmdRes idf env.username) }, [])
          | none => (app, [])
        else (app, [])
      else (app, [])
    | .down =>
      if app.hosts.length ≠ 0 then
        ({ app with selected := (app.selected + 1) % app.hosts.length }, [])
      else (app, [])
    | .up =>
      if app.hosts.length ≠ 0 then
        let i2 := if app.selected = 0 then app.hosts.length - 1 else app.selected - 1
        ({ app with selected := i2 }, [])
      else (app, [])
    | _ => (app, [])

/-- The debounce gate: the `allow` computation of the event loop.  `now`
is in milliseconds; `Instant::duration_since` saturates at zero exactly
like `Nat` subtraction. -/
def admitKey (app : AppState) (k : Key) (now : Nat) : Bool :=
  match app.lastKey, app.lastKeyTime with
  | some prev, some t => !(prev = k && now - t < 50)
  | _, _ => true

/-- One iteration of the event loop on a key event at time `now`:
debounce, then handle, then record the admitted key as the new debounce
baseline. -/
def step (env : Env) (app : AppState) (k : Key) (now : Nat) :
    AppState × List Eff :=
  if admitKey app k now then
    let r := handle env app k
    ({ r.1 with lastKey := some k, lastKeyTime := some now }, r.2)
  else (app, [])

/-- A sample environment: every external call succeeds. -/
def env0 : Env :=
  { persistOk := true, cmdRes := fun _ => CmdRes.ok true (some 0) [] [],
    username := "u".data }

/-- A one-profile store. -/
def hostA : HostEntry := mkHostEntry "a".data

example :
    (handle env0 (handle env0 (AppState.new [hostA]) (Key.char 'n')).1
      Key.enter).1.hosts = [newHost] := by decide

example :
    (handle env0 (handle env0 (handle env0 (AppState.new [hostA])
      (Key.char 'e')).1 Key.backspace).1 Key.enter).1.hosts =
      [mkHostEntry []] := by decide

/-! ## Basic lemmas about the string primitives -/

theorem stripPref_of_isPref :
    ∀ p s, isPref p s = true → stripPref p s = some (s.drop p.length)
  | [], s, _ => rfl
  | p :: ps, [], h => by simp [isPref] at h
  | p :: ps, c :: cs, h => by
    simp only [isPref, Bool.and_eq_true, decide_eq_true_eq] at h
    simp [stripPref, h.1, stripPref_of_isPref ps cs h.2]

theorem isPref_append_self : ∀ p s, isPref p (p ++ s) = true
  | [], s => rfl
  | c :: cs, s => by simp [isPref, isPref_append_self cs s]

theorem eq_append_drop_of_isPref :
    ∀ p s, isPref p s = true → s = p ++ s.drop p.length
  | [], s, _ => rfl
  | p :: ps, [], h => by simp [isPref] at h
  | p :: ps, c :: cs, h => by
    simp only [isPref, Bool.and_eq_true, decide_eq_true_eq] at h
    obtain ⟨h1, h2⟩ := h
    subst h1
    simpa using eq_append_drop_of_isPref ps cs h2

theorem stripCR_of_getLast_ne {l : Str} (h : l.getLast? ≠ some '\r') :
    stripCR l = l := by
  simp [stripCR, h]

theorem linesGo_nl (rest acc : Str) :
    linesGo ('\n' :: rest) acc = stripCR acc :: linesGo rest [] := by
  simp [linesGo]

theorem linesGo_append_no_nl :
    ∀ (l : Str), '\n' ∉ l → ∀ rest acc,
      linesGo (l ++ rest) acc = linesGo rest (acc ++ l)
  | [], _, rest, acc => by simp
  | c :: l, h, rest, acc => by
    simp only [List.mem_cons, not_or] at h
    have hc : ¬(c = '\n') := fun hcc => h.1 hcc.symm
    show linesGo (c :: (l ++ rest)) acc = _
    rw [linesGo, if_neg hc, linesGo_append_no_nl l h.2 rest (acc ++ [c])]
    simp

/-- Peeling one `\n`-terminated line (whose content has no `\n` and no
trailing `\r`) off the front of the input. -/
theorem linesGo_line (content : Str) (h : '\n' ∉ content)
    (hcr : content.getLast? ≠ some '\r') (rest : Str) :
    linesGo (content ++ '\n' :: rest) [] = content :: linesGo rest [] := by
  rw [linesGo_append_no_nl content h ('\n' :: rest) [], List.nil_append,
    linesGo_nl, stripCR_of_getLast_ne hcr]

theorem dropWhile_head_not :
    ∀ (l : Str) (c : Char) (cs : Str), l.dropWhile isWs = c :: cs → isWs c = false := by
  intro l
  induction l with
  | nil => intro c cs h; simp at h
  | cons a l ih =>
    intro c cs h
    by_cases ha : isWs a = true
    · rw [List.dropWhile_cons_of_pos ha] at h
      exact ih c cs h
    · rw [List.dropWhile_cons_of_neg ha] at h
      cases h
      simpa using ha

theorem trimLeft_eq_self {s : Str}
    (h : ∀ c, s.head? = some c → isWs c = false) : trimLeft s = s := by
  cases s with
  | nil => rfl
  | cons a l =>
    have := h a rfl
    simp [trimLeft, List.dropWhile_cons_of_neg, this]

theorem trimRight_eq_self {s : Str}
    (h : ∀ c, s.getLast? = some c → isWs c = false) : trimRight s = s := by
  cases hr : s.reverse with
  | nil =>
    have : s = [] := by simpa using congrArg List.reverse hr
    simp [this, trimRight]
  | cons a l =>
    have ha : s.getLast? = some a := by
      rw [← List.head?_reverse, hr]; rfl
    have := h a ha
    rw [trimRight, hr, List.dropWhile_cons_of_neg (by simp [this]), ← hr,
      List.reverse_reverse]

theorem trim_eq_self {s : Str}
    (hh : ∀ c, s.head? = some c → isWs c = false)
    (hl : ∀ c, s.getLast? = some c → isWs c = false) : trim s = s := by
  rw [trim, trimLeft_eq_self hh, trimRight_eq_self hl]

theorem trimLeft_ws_append :
    ∀ (pre : Str), (∀ c ∈ pre, isWs c = true) → ∀ s, trimLeft (pre ++ s) = trimLeft s
  | [], _, s => rfl
  | c :: pre, h, s => by
    have hc : isWs c = true := h c (by simp)
    have hrest : ∀ c ∈ pre, isWs c = true := fun x hx => h x (by simp [hx])
    show trimLeft (c :: (pre ++ s)) = trimLeft s
    rw [trimLeft, List.dropWhile_cons_of_pos hc]
    exact trimLeft_ws_append pre hrest s

/-- `trim` of whitespace followed by a string with non-whitespace first and
last characters. -/
theorem trim_ws_core {pre core : Str} (hpre : ∀ c ∈ pre, isWs c = true)
    (hh : ∀ c, core.head? = some c → isWs c = false)
    (hl : ∀ c, core.getLast? = some c → isWs c = false) :
    trim (pre ++ core) = core := by
  rw [trim, trimLeft_ws_append pre hpre, trimLeft_eq_self hh,
    trimRight_eq_self hl]

theorem mem_dropWhile_of_not {x : Char} :
    ∀ (l : Str), x ∈ l → isWs x = false → x ∈ l.dropWhile isWs := by
  intro l
  induction l with
  | nil => simp
  | cons a l ih =>
    intro hx hws
    by_cases ha : isWs a = true
    · rw [List.dropWhile_cons_of_pos ha]
      rcases List.mem_cons.mp hx with h | h
      · subst h; rw [hws] at ha; cases ha
      · exact ih h hws
    · rw [List.dropWhile_cons_of_neg ha]
      exact hx

theorem trim_ne_nil_of_mem {x : Char} {s : Str}
    (hx : x ∈ s) (hws : isWs x = false) : trim s ≠ [] := by
  have h1 : x ∈ trimLeft s := mem_dropWhile_of_not s hx hws
  have h2 : x ∈ trim s := by
    rw [trim, trimRight]
    rw [List.mem_reverse]
    exact mem_dropWhile_of_not _ (by simpa using h1) hws
  intro h
  rw [h] at h2
  cases h2

theorem trim_getLast_not_ws {s : Str} :
    ∀ c, (trim s).getLast? = some c → isWs c = false := by
  intro c hc
  rw [trim, trimRight, ← List.head?_reverse, List.reverse_reverse] at hc
  cases hd : (trimLeft s).reverse.dropWhile isWs with
  | nil => rw [hd] at hc; cases hc
  | cons a l =>
    rw [hd] at hc
    cases hc
    exact dropWhile_head_not _ _ _ hd

/-! ## Well-formedness of field values for the round-trip -/

/-- A value round-trips iff it is non-empty, newline-free, and has no
leading or trailing whitespace. -/
abbrev goodVal (v : Str) : Prop :=
  v ≠ [] ∧ '\n' ∉ v ∧ v.head?.all (fun c => !isWs c) = true ∧
    v.getLast?.all (fun c => !isWs c) = true

abbrev goodOpt : Option Str → Prop
  | some v => goodVal v
  | none => True

abbrev goodEntry (h : HostEntry) : Prop :=
  goodVal h.name ∧ goodOpt h.hostname ∧ goodOpt h.user ∧ goodOpt h.port ∧
    goodOpt h.identity_file ∧ goodOpt h.password

theorem goodVal_head {v : Str} (hv : goodVal v) :
    ∀ c, v.head? = some c → isWs c = false := by
  intro c hc
  have := hv.2.2.1
  rw [hc] at this
  simpa using this

theorem goodVal_last {v : Str} (hv : goodVal v) :
    ∀ c, v.getLast? = some c → isWs c = false := by
  intro c hc
  have := hv.2.2.2
  rw [hc] at this
  simpa using this

theorem trim_space_cons {v : Str} (hv : goodVal v) : trim (' ' :: v) = v := by
  have : (' ' :: v) = [' '] ++ v := rfl
  rw [this]
  exact trim_ws_core (by intro c hc; simp at hc; subst hc; decide)
    (goodVal_head hv) (goodVal_last hv)

theorem stripPref_append_self : ∀ p s : Str, stripPref p (p ++ s) = some s
  | [], s => rfl
  | c :: p, s => by simp [stripPref, stripPref_append_self p s]

theorem trim_ws_prefix {pre : Str} (hpre : ∀ c ∈ pre, isWs c = true)
    (s : Str) : trim (pre ++ s) = trim s := by
  rw [trim, trimLeft_ws_append pre hpre, ← trim]

theorem trim_core_append {pre v : Str} {c : Char} (hc : pre.head? = some c)
    (hcw : isWs c = false) (hv : goodVal v) : trim (pre ++ v) = pre ++ v := by
  cases pre with
  | nil => cases hc
  | cons a p =>
    have ha : a = c := by simpa using hc
    subst ha
    apply trim_eq_self
    · intro d hd
      simp only [List.cons_append, List.head?_cons, Option.some.injEq] at hd
      subst hd
      exact hcw
    · intro d hd
      rw [List.getLast?_append_of_ne_nil _ hv.1] at hd
      exact goodVal_last hv d hd

/-! ### `updateEntry` on keyword-prefixed lines -/

theorem updateEntry_hostname (e : HostEntry) (v : Str) :
    updateEntry e ("HostName".data ++ v) = { e with hostname := some (trim v) } := rfl

theorem updateEntry_user (e : HostEntry) (v : Str) :
    updateEntry e ("User".data ++ v) = { e with user := some (trim v) } := rfl

theorem updateEntry_port (e : HostEntry) (v : Str) :
    updateEntry e ("Port".data ++ v) = { e with port := some (trim v) } := rfl

theorem updateEntry_identity (e : HostEntry) (v : Str) :
    updateEntry e ("IdentityFile".data ++ v) =
      { e with identity_file := some (trim v) } := rfl

theorem updateEntry_pw_comment (e : HostEntry) (v : Str) :
    updateEntry e ("# Password".data ++ v) =
      { e with password := some (trim v) } := rfl

theorem updateEntry_nil (e : HostEntry) : updateEntry e [] = e := rfl

/-! ## Spec-shaped view of the serializer -/

/-- The serialized line of a set field (no line at all for an unset one). -/
def optLine (pre : Str) : Option Str → List Str
  | some v => [pre ++ v]
  | none => []

/-- The lines of one serialized block: the host-declaration line, one
indented line per set field in the fixed order, then the blank separator
line. -/
def specBlockLines (h : HostEntry) : List Str :=
  ("Host ".data ++ h.name) ::
    (optLine "    HostName ".data h.hostname ++
      (optLine "    User ".data h.user ++
        (optLine "    Port ".data h.port ++
          (optLine "    IdentityFile ".data h.identity_file ++
            (optLine "    # Password ".data h.password ++ [[]])))))

/-- Join lines, terminating each with `\n`. -/
def joinNl (ls : List Str) : Str := ls.foldr (fun l acc => l ++ '\n' :: acc) []

/-- The serializer as the specification describes it: for each profile in
order, its block of lines. -/
def serializeSpec (hosts : List HostEntry) : Str :=
  (hosts.map (fun h => joinNl (specBlockLines h))).flatten

theorem joinNl_append (xs ys : List Str) :
    joinNl (xs ++ ys) = joinNl xs ++ joinNl ys := by
  induction xs with
  | nil => rfl
  | cons x xs ih => simp [joinNl, List.foldr_cons] at ih ⊢; simp [ih]

theorem joinNl_optLine (pre : Str) (o : Option Str) :
    joinNl (optLine pre o) = optSeg pre o := by
  cases o <;> simp [joinNl, optLine, optSeg]

theorem joinNl_cons (x : Str) (xs : List Str) :
    joinNl (x :: xs) = x ++ '\n' :: joinNl xs := rfl

theorem hostBlock_eq_joinNl (h : HostEntry) :
    hostBlock h = joinNl (specBlockLines h) := by
  rw [specBlockLines, joinNl_cons,
    joinNl_append, joinNl_optLine,
    joinNl_append, joinNl_optLine,
    joinNl_append, joinNl_optLine,
    joinNl_append, joinNl_optLine,
    joinNl_append, joinNl_optLine,
    show joinNl [([] : Str)] = ['\n'] from rfl, hostBlock]
  simp [List.append_assoc]

theorem write_foldl_flatten (hosts : List HostEntry) :
    ∀ init : Str, hosts.foldl (fun out h => out ++ hostBlock h) init =
      init ++ (hosts.map hostBlock).flatten := by
  induction hosts with
  | nil => intro init; simp
  | cons h hs ih => intro init; simp [List.foldl_cons, ih, List.append_assoc]

/-- C6 (amended form): the serializer emits exactly the spec-shaped text. -/
theorem write_eq_serializeSpec (hosts : List HostEntry) :
    write_ssh_config_text hosts = serializeSpec hosts := by
  rw [write_ssh_config_text, write_foldl_flatten hosts [], List.nil_append,
    serializeSpec]
  congr 1
  exact List.map_congr_left (fun h _ => hostBlock_eq_joinNl h)

/-! ## Lines of the serialized text -/

theorem linesGo_seg (pre v : Str) (hpnl : '\n' ∉ pre) (hv : goodVal v)
    (X : Str) :
    linesGo ((pre ++ v ++ ['\n']) ++ X) [] = (pre ++ v) :: linesGo X [] := by
  have h1 : (pre ++ v ++ ['\n']) ++ X = (pre ++ v) ++ ('\n' :: X) := by simp
  rw [h1]
  apply linesGo_line
  · intro hmem
    rcases List.mem_append.mp hmem with h | h
    · exact hpnl h
    · exact hv.2.1 h
  · rw [List.getLast?_append_of_ne_nil _ hv.1]
    intro hc
    exact absurd (goodVal_last hv '\r' hc) (by decide)

theorem linesGo_optSeg (pre : Str) (hpnl : '\n' ∉ pre) {o : Option Str}
    (ho : goodOpt o) (X : Str) :
    linesGo (optSeg pre o ++ X) [] = optLine pre o ++ linesGo X [] := by
  cases o with
  | none => simp [optSeg, optLine]
  | some v =>
    show linesGo ((pre ++ v ++ ['\n']) ++ X) [] = _
    rw [linesGo_seg pre v hpnl ho X]
    rfl

theorem linesGo_blank (X : Str) : linesGo (['\n'] ++ X) [] = [] :: linesGo X [] := rfl

theorem linesGo_hostBlock (h : HostEntry) (hg : goodEntry h) (X : Str) :
    linesGo (hostBlock h ++ X) [] = specBlockLines h ++ linesGo X [] := by
  obtain ⟨hn, hh, hu, hp, hi, hpw⟩ := hg
  rw [hostBlock, List.append_assoc,
    linesGo_seg _ h.name (by decide) hn, List.append_assoc,
    linesGo_optSeg _ (by decide) hh, List.append_assoc,
    linesGo_optSeg _ (by decide) hu, List.append_assoc,
    linesGo_optSeg _ (by decide) hp, List.append_assoc,
    linesGo_optSeg _ (by decide) hi, List.append_assoc,
    linesGo_optSeg _ (by decide) hpw, linesGo_blank, specBlockLines]
  simp [List.append_assoc]

theorem linesGo_blocks :
    ∀ (hosts : List HostEntry), (∀ h ∈ hosts, goodEntry h) →
      linesGo ((hosts.map hostBlock).flatten) [] =
        (hosts.map specBlockLines).flatten
  | [], _ => rfl
  | h :: hs, hg => by
    simp only [List.map_cons, List.flatten_cons]
    rw [linesGo_hostBlock h (hg h (by simp)),
      linesGo_blocks hs (fun x hx => hg x (by simp [hx]))]

theorem rustLines_write (hosts : List HostEntry)
    (hg : ∀ h ∈ hosts, goodEntry h) :
    rustLines (write_ssh_config_text hosts) =
      (hosts.map specBlockLines).flatten := by
  rw [write_ssh_config_text, write_foldl_flatten hosts [], List.nil_append,
    rustLines, linesGo_blocks hosts hg]

/-! ## Parsing the serialized lines back -/

theorem parseT_cons_host {l : Str} (h : isPref "Host ".data (trim l) = true)
    (ls : List Str) (cur : Option HostEntry) :
    parseLinesT (l :: ls) cur =
      optList cur ++ parseLinesT ls (some (mkHostEntry (trim ((trim l).drop 4)))) := by
  rw [parseLinesT.eq_def]
  simp only [h, if_true]

theorem parseT_cons_other_some {l : Str}
    (h : isPref "Host ".data (trim l) = false) (ls : List Str) (e : HostEntry) :
    parseLinesT (l :: ls) (some e) =
      parseLinesT ls (some (updateEntry e (trim l))) := by
  rw [parseLinesT.eq_def]
  simp only [h, Bool.false_eq_true, if_false]

theorem parseT_cons_other_none {l : Str}
    (h : isPref "Host ".data (trim l) = false) (ls : List Str) :
    parseLinesT (l :: ls) none = parseLinesT ls none := by
  rw [parseLinesT.eq_def]
  simp only [h, Bool.false_eq_true, if_false]

theorem parseT_line_host {name : Str} (hn : goodVal name) (ls : List Str)
    (cur : Option HostEntry) :
    parseLinesT (("Host ".data ++ name) :: ls) cur =
      optList cur ++ parseLinesT ls (some (mkHostEntry name)) := by
  have htrim : trim ("Host ".data ++ name) = "Host ".data ++ name :=
    trim_core_append rfl (by decide) hn
  have hhost : isPref "Host ".data (trim ("Host ".data ++ name)) = true := by
    rw [htrim]; exact isPref_append_self _ _
  rw [parseT_cons_host hhost, htrim]
  have hdrop : (("Host ".data ++ name) : Str).drop 4 = ' ' :: name := rfl
  rw [hdrop, trim_space_cons hn]

theorem parseT_line_hostname {v : Str} (hv : goodVal v) (e : HostEntry)
    (ls : List Str) :
    parseLinesT (("    HostName ".data ++ v) :: ls) (some e) =
      parseLinesT ls (some { e with hostname := some v }) := by
  have htrim : trim ("    HostName ".data ++ v) = "HostName ".data ++ v := by
    rw [show ("    HostName ".data ++ v : Str) =
          "    ".data ++ ("HostName ".data ++ v) from rfl,
      trim_ws_prefix (by decide)]
    exact trim_core_append rfl (by decide) hv
  have hhost : isPref "Host ".data (trim ("    HostName ".data ++ v)) = false := by
    rw [htrim]; rfl
  rw [parseT_cons_other_some hhost, htrim,
    show ("HostName ".data ++ v : Str) = "HostName".data ++ (' ' :: v) from rfl,
    updateEntry_hostname, trim_space_cons hv]

theorem parseT_line_user {v : Str} (hv : goodVal v) (e : HostEntry)
    (ls : List Str) :
    parseLinesT (("    User ".data ++ v) :: ls) (some e) =
      parseLinesT ls (some { e with user := some v }) := by
  have htrim : trim ("    User ".data ++ v) = "User ".data ++ v := by
    rw [show ("    User ".data ++ v : Str) =
          "    ".data ++ ("User ".data ++ v) from rfl,
      trim_ws_prefix (by decide)]
    exact trim_core_append rfl (by decide) hv
  have hhost : isPref "Host ".data (trim ("    User ".data ++ v)) = false := by
    rw [htrim]; rfl
  rw [parseT_cons_other_some hhost, htrim,
    show ("User ".data ++ v : Str) = "User".data ++ (' ' :: v) from rfl,
    updateEntry_user, trim_space_cons hv]

theorem parseT_line_port {v : Str} (hv : goodVal v) (e : HostEntry)
    (ls : List Str) :
    parseLinesT (("    Port ".data ++ v) :: ls) (some e) =
      parseLinesT ls (some { e with port := some v }) := by
  have htrim : trim ("    Port ".data ++ v) = "Port ".data ++ v := by
    rw [show ("    Port ".data ++ v : Str) =
          "    ".data ++ ("Port ".data ++ v) from rfl,
      trim_ws_prefix (by decide)]
    exact trim_core_append rfl (by decide) hv
  have hhost : isPref "Host ".data (trim ("    Port ".data ++ v)) = false := by
    rw [htrim]; rfl
  rw [parseT_cons_other_some hhost, htrim,
    show ("Port ".data ++ v : Str) = "Port".data ++ (' ' :: v) from rfl,
    updateEntry_port, trim_space_cons hv]

theorem parseT_line_identity {v : Str} (hv : goodVal v) (e : HostEntry)
    (ls : List Str) :
    parseLinesT (("    IdentityFile ".data ++ v) :: ls) (some e) =
      parseLinesT ls (some { e with identity_file := some v }) := by
  have htrim : trim ("    IdentityFile ".data ++ v) = "IdentityFile ".data ++ v := by
    rw [show ("    IdentityFile ".data ++ v : Str) =
          "    ".data ++ ("IdentityFile ".data ++ v) from rfl,
      trim_ws_prefix (by decide)]
    exact trim_core_append rfl (by decide) hv
  have hhost : isPref "Host ".data (trim ("    IdentityFile ".data ++ v)) = false := by
    rw [htrim]; rfl
  rw [parseT_cons_other_some hhost, htrim,
    show ("IdentityFile ".data ++ v : Str) = "IdentityFile".data ++ (' ' :: v) from rfl,
    updateEntry_identity, trim_space_cons hv]

theorem parseT_line_password {v : Str} (hv : goodVal v) (e : HostEntry)
    (ls : List Str) :
    parseLinesT (("    # Password ".data ++ v) :: ls) (some e) =
      parseLinesT ls (some { e with password := some v }) := by
  have htrim : trim ("    # Password ".data ++ v) = "# Password ".data ++ v := by
    rw [show ("    # Password ".data ++ v : Str) =
          "    ".data ++ ("# Password ".data ++ v) from rfl,
      trim_ws_prefix (by decide)]
    exact trim_core_append rfl (by decide) hv
  have hhost : isPref "Host ".data (trim ("    # Password ".data ++ v)) = false := by
    rw [htrim]; rfl
  rw [parseT_cons_other_some hhost, htrim,
    show ("# Password ".data ++ v : Str) = "# Password".data ++ (' ' :: v) from rfl,
    updateEntry_pw_comment, trim_space_cons hv]

theorem parseT_line_blank (e : HostEntry) (ls : List Str) :
    parseLinesT (([] : Str) :: ls) (some e) = parseLinesT ls (some e) := by
  have h : isPref "Host ".data (trim ([] : Str)) = false := rfl
  rw [parseT_cons_other_some h]
  rw [show updateEntry e (trim ([] : Str)) = e from rfl]

theorem parseT_optline_hostname {o : Option Str} (ho : goodOpt o)
    (e : HostEntry) (he : e.hostname = none) (ls : List Str) :
    parseLinesT (optLine "    HostName ".data o ++ ls) (some e) =
      parseLinesT ls (some { e with hostname := o }) := by
  cases o with
  | none =>
    have h2 : ({ e with hostname := none } : HostEntry) = e := by rw [← he]
    rw [h2]
    rfl
  | some v => exact parseT_line_hostname ho e ls

theorem parseT_optline_user {o : Option Str} (ho : goodOpt o)
    (e : HostEntry) (he : e.user = none) (ls : List Str) :
    parseLinesT (optLine "    User ".data o ++ ls) (some e) =
      parseLinesT ls (some { e with user := o }) := by
  cases o with
  | none =>
    have h2 : ({ e with user := none } : HostEntry) = e := by rw [← he]
    rw [h2]
    rfl
  | some v => exact parseT_line_user ho e ls

theorem parseT_optline_port {o : Option Str} (ho : goodOpt o)
    (e : HostEntry) (he : e.port = none) (ls : List Str) :
    parseLinesT (optLine "    Port ".data o ++ ls) (some e) =
      parseLinesT ls (some { e with port := o }) := by
  cases o with
  | none =>
    have h2 : ({ e with port := none } : HostEntry) = e := by rw [← he]
    rw [h2]
    rfl
  | some v => exact parseT_line_port ho e ls

theorem parseT_optline_identity {o : Option Str} (ho : goodOpt o)
    (e : HostEntry) (he : e.identity_file = none) (ls : List Str) :
    parseLinesT (optLine "    IdentityFile ".data o ++ ls) (some e) =
      parseLinesT ls (some { e with identity_file := o }) := by
  cases o with
  | none =>
    have h2 : ({ e with identity_file := none } : HostEntry) = e := by rw [← he]
    rw [h2]
    rfl
  | some v => exact parseT_line_identity ho e ls

theorem parseT_optline_password {o : Option Str} (ho : goodOpt o)
    (e : HostEntry) (he : e.password = none) (ls : List Str) :
    parseLinesT (optLine "    # Password ".data o ++ ls) (some e) =
      parseLinesT ls (some { e with password := o }) := by
  cases o with
  | none =>
    have h2 : ({ e with password := none } : HostEntry) = e := by rw [← he]
    rw [h2]
    rfl
  | some v => exact parseT_line_password ho e ls

/-- Parsing one serialized block restores the profile exactly and flushes
the previous one. -/
theorem parseT_block (h : HostEntry) (hg : goodEntry h) (ls : List Str)
    (cur : Option HostEntry) :
    parseLinesT (specBlockLines h ++ ls) cur =
      optList cur ++ parseLinesT ls (some h) := by
  obtain ⟨hn, hh, hu, hp, hi, hpw⟩ := hg
  rw [specBlockLines, List.cons_append, parseT_line_host hn,
    List.append_assoc, parseT_optline_hostname hh _ rfl,
    List.append_assoc, parseT_optline_user hu _ rfl,
    List.append_assoc, parseT_optline_port hp _ rfl,
    List.append_assoc, parseT_optline_identity hi _ rfl,
    List.append_assoc, parseT_optline_password hpw _ rfl,
    show ([([] : Str)] ++ ls) = ([] : Str) :: ls from rfl,
    parseT_line_blank]
  rfl

theorem parseT_blocks :
    ∀ (hosts : List HostEntry), (∀ h ∈ hosts, goodEntry h) →
      ∀ cur, parseLinesT ((hosts.map specBlockLines).flatten) cur =
        optList cur ++ hosts
  | [], _, cur => by cases cur <;> simp [parseLinesT, optList]
  | h :: hs, hg, cur => by
    simp only [List.map_cons, List.flatten_cons]
    rw [parseT_block h (hg h (by simp)) _ cur,
      parseT_blocks hs (fun x hx => hg x (by simp [hx])) (some h)]
    simp [optList]

/-- The `.unwrap()` in the parser never panics: the guarded
`strip_prefix("Host")` always succeeds, so `parseLinesE` agrees with its
total twin. -/
theorem parseLinesE_eq_total :
    ∀ (ls : List Str) (cur : Option HostEntry),
      parseLinesE ls cur = some (parseLinesT ls cur)
  | [], cur => rfl
  | l :: ls, cur => by
    by_cases h : isPref "Host ".data (trim l) = true
    · have he := eq_append_drop_of_isPref _ _ h
      have hs : stripPref "Host".data (trim l) = some ((trim l).drop 4) := by
        conv_lhs => rw [he]
        rw [show ("Host ".data ++ (trim l).drop ("Host ".data).length : Str) =
              "Host".data ++ (' ' :: (trim l).drop 5) from rfl,
          stripPref_append_self]
        conv_rhs => rw [he]
        rfl
      rw [parseLinesE.eq_def, parseLinesT.eq_def]
      simp only [h, if_true, hs]
      rw [parseLinesE_eq_total ls]
      rfl
    · rw [parseLinesE.eq_def, parseLinesT.eq_def]
      simp only [h, Bool.false_eq_true, if_false]
      cases cur with
      | none => exact parseLinesE_eq_total ls none
      | some e => exact parseLinesE_eq_total ls _

/-- `parse_ssh_config` never fails (the unwrap panic is unreachable). -/
theorem parse_total (s : Str) :
    parse_ssh_config s = some (parseLinesT (rustLines s) none) := by
  rw [parse_ssh_config, parseLinesE_eq_total]

/-- C1 (amended form): round trip on profiles whose values are non-empty,
newline-free and have no surrounding whitespace. -/
theorem parse_write_roundtrip (hosts : List HostEntry)
    (hg : ∀ h ∈ hosts, goodEntry h) :
    parse_ssh_config (write_ssh_config_text hosts) = some hosts := by
  rw [parse_total, rustLines_write hosts hg, parseT_blocks hosts hg none]
  rfl

/-! ## Tolerance properties of the parser (C7) -/

theorem parseT_no_host (ls : List Str)
    (h : ∀ l ∈ ls, isPref "Host ".data (trim l) = false) :
    parseLinesT ls none = [] := by
  induction ls with
  | nil => rfl
  | cons l ls ih =>
    rw [parseT_cons_other_none (h l (by simp))]
    exact ih (fun x hx => h x (by simp [hx]))

/-- A trimmed line matching none of the six field keywords. -/
def noKeyword (t : Str) : Bool :=
  (stripPref "HostName".data t).isNone && (stripPref "User".data t).isNone &&
  (stripPref "Port".data t).isNone && (stripPref "IdentityFile".data t).isNone &&
  (stripPref "Password".data t).isNone && (stripPref "# Password".data t).isNone

theorem updateEntry_noKeyword {t : Str} (h : noKeyword t = true) (e : HostEntry) :
    updateEntry e t = e := by
  simp only [noKeyword, Bool.and_eq_true, Option.isNone_iff_eq_none] at h
  obtain ⟨⟨⟨⟨⟨h1, h2⟩, h3⟩, h4⟩, h5⟩, h6⟩ := h
  rw [updateEntry.eq_def]
  simp only [h1, h2, h3, h4, h5, h6]

theorem parseT_skip_junk {l : Str} (hnh : isPref "Host ".data (trim l) = false)
    (hnk : noKeyword (trim l) = true) (ls : List Str) (cur : Option HostEntry) :
    parseLinesT (l :: ls) cur = parseLinesT ls cur := by
  cases cur with
  | none => exact parseT_cons_other_none hnh ls
  | some e => rw [parseT_cons_other_some hnh, updateEntry_noKeyword hnk]

theorem parseT_flush (ls : List Str) :
    ∀ e : HostEntry, ∃ e2, parseLinesT ls (some e) = e2 :: parseLinesT ls none := by
  induction ls with
  | nil => intro e; exact ⟨e, rfl⟩
  | cons l ls ih =>
    intro e
    by_cases h : isPref "Host ".data (trim l) = true
    · refine ⟨e, ?_⟩
      rw [parseT_cons_host h, parseT_cons_host h]
      rfl
    · rw [parseT_cons_other_some (by simpa using h),
        parseT_cons_other_none (by simpa using h)]
      exact ih (updateEntry e (trim l))

/-! ## Non-emptiness of parsed names (C3) -/

theorem hostline_name_ne_nil {l : Str}
    (h : isPref "Host ".data (trim l) = true) :
    trim ((trim l).drop 4) ≠ [] := by
  have he := eq_append_drop_of_isPref _ _ h
  set r := (trim l).drop ("Host ".data).length with hr
  have hr_ne : r ≠ [] := by
    intro hnil
    rw [hnil, List.append_nil] at he
    have := trim_getLast_not_ws (s := l) ' '
    rw [he] at this
    exact absurd (this (by rfl)) (by decide)
  obtain ⟨c, hc⟩ : ∃ c, r.getLast? = some c := by
    cases hcl : r.getLast? with
    | none => exact absurd (List.getLast?_eq_none_iff.mp hcl) hr_ne
    | some c => exact ⟨c, rfl⟩
  have hlast : (trim l).getLast? = some c := by
    rw [he]
    rw [List.getLast?_append_of_ne_nil _ hr_ne]
    exact hc
  have hcws : isWs c = false := trim_getLast_not_ws _ hlast
  have hdrop4 : (trim l).drop 4 = ' ' :: r := by
    conv_lhs => rw [he]
    rfl
  rw [hdrop4]
  exact trim_ne_nil_of_mem
    (List.mem_cons_of_mem _ (List.mem_of_mem_getLast? hc)) hcws

theorem updateEntry_name (e : HostEntry) (t : Str) :
    (updateEntry e t).name = e.name := by
  rw [updateEntry.eq_def]
  repeat' split
  all_goals rfl

theorem parseT_names_ne_nil :
    ∀ (ls : List Str) (cur : Option HostEntry),
      (∀ e, cur = some e → e.name ≠ []) →
      ∀ h ∈ parseLinesT ls cur, h.name ≠ []
  | [], cur, hcur => by
    cases cur with
    | none => simp [parseLinesT, optList]
    | some e =>
      intro h hh
      simp [parseLinesT, optList] at hh
      subst hh
      exact hcur h rfl
  | l :: ls, cur, hcur => by
    intro h hh
    by_cases hl : isPref "Host ".data (trim l) = true
    · rw [parseT_cons_host hl] at hh
      rcases List.mem_append.mp hh with hmem | hmem
      · cases cur with
        | none => simp [optList] at hmem
        | some e =>
          simp [optList] at hmem
          subst hmem
          exact hcur h rfl
      · exact parseT_names_ne_nil ls _
          (fun e he => by
            cases he
            exact hostline_name_ne_nil hl) h hmem
    · cases cur with
      | none =>
        rw [parseT_cons_other_none (by simpa using hl)] at hh
        exact parseT_names_ne_nil ls none (by simp) h hh
      | some e =>
        rw [parseT_cons_other_some (by simpa using hl)] at hh
        exact parseT_names_ne_nil ls _
          (fun e2 he2 => by
            cases he2
            rw [updateEntry_name]
            exact hcur e rfl) h hh

/-! ## Unfolding lemmas for `handle` in edit mode -/

theorem handle_edit_esc (env : Env) (app : AppState) (ed : EditState)
    (h : app.edit_mode = some ed) :
    handle env app Key.esc = ({ app with edit_mode := none }, []) := by
  rw [handle.eq_def, h]

theorem handle_edit_tab (env : Env) (app : AppState) (ed : EditState)
    (h : app.edit_mode = some ed) :
    handle env app Key.tab =
      ({ app with edit_mode := some { ed with field_index := (ed.field_index + 1) % 6 } }, []) := by
  rw [handle.eq_def, h]

theorem handle_edit_down (env : Env) (app : AppState) (ed : EditState)
    (h : app.edit_mode = some ed) :
    handle env app Key.down =
      ({ app with edit_mode := some { ed with field_index := (ed.field_index + 1) % 6 } }, []) := by
  rw [handle.eq_def, h]

theorem handle_edit_up (env : Env) (app : AppState) (ed : EditState)
    (h : app.edit_mode = some ed) :
    handle env app Key.up =
      ({ app with edit_mode := some { ed with field_index := if ed.field_index = 0 then 5 else ed.field_index - 1 } }, []) := by
  rw [handle.eq_def, h]

theorem handle_edit_backspace (env : Env) (app : AppState) (ed : EditState)
    (h : app.edit_mode = some ed) :
    handle env app Key.backspace =
      ({ app with edit_mode := some { ed with host := applyField ed.host ed.field_index strPop } }, []) := by
  rw [handle.eq_def, h]

theorem handle_edit_char (env : Env) (app : AppState) (ed : EditState)
    (c : Char) (h : app.edit_mode = some ed) :
    handle env app (Key.char c) =
      ({ app with edit_mode := some { ed with host := applyField ed.host ed.field_index (fun s => s ++ [c]) } }, []) := by
  rw [handle.eq_def, h]

theorem handle_edit_enter (env : Env) (app : AppState) (ed : EditState)
    (h : app.edit_mode = some ed) :
    handle env app Key.enter =
      if app.selected < app.hosts.length then
        ({ app with hosts := app.hosts.set app.selected ed.host, edit_mode := none },
         [Eff.persist (app.hosts.set app.selected ed.host)])
      else
        ({ app with hosts := app.hosts ++ [ed.host], selected := (app.hosts ++ [ed.host]).length - 1, edit_mode := none },
         [Eff.persist (app.hosts ++ [ed.host])]) := by
  rw [handle.eq_def, h]

/-! ## Edit-mode isolation (C5) -/

/-- The editing keys of the claim: field navigation, printable characters,
backspace. -/
def isEditKey : Key → Bool
  | .tab => true
  | .down => true
  | .up => true
  | .backspace => true
  | .char _ => true
  | _ => false

theorem handle_edit_step_inv (env : Env) (app : AppState) (ed : EditState)
    (hed : app.edit_mode = some ed) {k : Key} (hk : isEditKey k = true) :
    (handle env app k).1.hosts = app.hosts ∧
      (handle env app k).1.selected = app.selected ∧
      ∃ ed2, (handle env app k).1.edit_mode = some ed2 := by
  cases k with
  | tab => rw [handle_edit_tab env app ed hed]; exact ⟨rfl, rfl, _, rfl⟩
  | down => rw [handle_edit_down env app ed hed]; exact ⟨rfl, rfl, _, rfl⟩
  | up => rw [handle_edit_up env app ed hed]; exact ⟨rfl, rfl, _, rfl⟩
  | backspace => rw [handle_edit_backspace env app ed hed]; exact ⟨rfl, rfl, _, rfl⟩
  | char c => rw [handle_edit_char env app ed c hed]; exact ⟨rfl, rfl, _, rfl⟩
  | enter => cases hk
  | esc => cases hk
  | other => cases hk

theorem handle_edit_fold_inv (env : Env) :
    ∀ (ks : List Key), (∀ k ∈ ks, isEditKey k = true) →
      ∀ (app : AppState) (ed : EditState), app.edit_mode = some ed →
        (ks.foldl (fun a k => (handle env a k).1) app).hosts = app.hosts ∧
          ∃ ed2, (ks.foldl (fun a k => (handle env a k).1) app).edit_mode = some ed2
  | [], _, app, ed, hed => ⟨rfl, ed, hed⟩
  | k :: ks, hks, app, ed, hed => by
    obtain ⟨h1, _h2, ed2, hed2⟩ :=
      handle_edit_step_inv env app ed hed (hks k (by simp))
    simp only [List.foldl_cons]
    obtain ⟨ih1, ih2⟩ :=
      handle_edit_fold_inv env ks (fun x hx => hks x (by simp [hx])) _ ed2 hed2
    exact ⟨ih1.trans h1, ih2⟩

/-! ## Debounce (C4) -/

theorem step_admitted (env : Env) (app : AppState) (k : Key) (t : Nat)
    (h : admitKey app k t = true) :
    step env app k t =
      ({ (handle env app k).1 with lastKey := some k, lastKeyTime := some t },
       (handle env app k).2) := by
  unfold step
  rw [h]
  simp

theorem step_dropped (env : Env) (app : AppState) (k : Key) (t : Nat)
    (h : admitKey app k t = false) :
    step env app k t = (app, []) := by
  unfold step
  rw [h]
  simp

theorem admitKey_second (env : Env) (app : AppState) (k : Key) (t1 t2 : Nat)
    (h1 : admitKey app k t1 = true) :
    admitKey ((step env app k t1).1) k t2 = !(decide (t2 - t1 < 50)) := by
  rw [step_admitted env app k t1 h1]
  simp [admitKey]

/-! ## The permission sequence (C9) -/

/-- A non-success outcome: failed exit status or spawn error. -/
def resFails : CmdRes → Bool
  | .ok success _ _ _ => !success
  | .err _ => true

theorem find?_map_succ (p : Nat → Bool) :
    ∀ l : List Nat,
      (l.map (· + 1)).find? p = (l.find? (fun d => p (d + 1))).map (· + 1)
  | [] => rfl
  | x :: l => by
    by_cases h : p (x + 1) = true
    · simp [List.find?_cons, h]
    · simp only [List.map_cons, List.find?_cons, h]
      simp only [Bool.false_eq_true, if_false] at *
      rw [find?_map_succ p l]

theorem find?_map_natsucc (p : Nat → Bool) :
    ∀ l : List Nat,
      (l.map Nat.succ).find? p = (l.find? (fun d => p (d + 1))).map Nat.succ
  | [] => rfl
  | x :: l => by
    by_cases h : p (x + 1) = true
    · simp [List.find?_cons, h]
    · simp only [List.map_cons, List.find?_cons, h]
      simp only [Bool.false_eq_true, if_false] at *
      rw [find?_map_natsucc p l]

theorem icaclsSeq_attempted (env : Nat → CmdRes) :
    ∀ (cmds : List (List Str)) (i : Nat) (acc : Str),
      (icaclsSeq env cmds i acc).2.2 =
        (match (List.range cmds.length).find? (fun d => resFails (env (i + d))) with
         | some d => i + d + 1
         | none => i + cmds.length)
  | [], i, acc => by simp [icaclsSeq]
  | args :: rest, i, acc => by
    simp only [icaclsSeq, List.length_cons, List.range_succ_eq_map,
      List.find?_cons]
    cases henv : env i with
    | ok success code so se =>
      cases success with
      | true =>
        have hp0 : resFails (env (i + 0)) = false := by
          rw [Nat.add_zero, henv]; rfl
        simp only [hp0, Bool.false_eq_true, if_false, if_true,
          icaclsSeq_attempted env rest (i + 1),
          find?_map_natsucc (fun d => resFails (env (i + d)))]
        have harg : (fun d => resFails (env (i + (d + 1)))) =
            (fun d => resFails (env (i + 1 + d))) := by
          funext d
          congr 2
          omega
        rw [harg]
        cases (List.range rest.length).find? (fun d => resFails (env (i + 1 + d))) with
        | none =>
          show i + 1 + rest.length = i + (rest.length + 1)
          omega
        | some d =>
          show i + 1 + d + 1 = i + Nat.succ d + 1
          omega
      | false =>
        have hp0 : resFails (env (i + 0)) = true := by
          rw [Nat.add_zero, henv]; rfl
        simp only [hp0, if_true, Bool.false_eq_true, if_false]
    | err e =>
      have hp0 : resFails (env (i + 0)) = true := by
        rw [Nat.add_zero, henv]; rfl
      simp only [hp0, if_true]

theorem icaclsSeq_failed_iff (env : Nat → CmdRes) :
    ∀ (cmds : List (List Str)) (i : Nat) (acc : Str),
      (icaclsSeq env cmds i acc).2.1 = none ↔
        ∀ d < cmds.length, resFails (env (i + d)) = false
  | [], i, acc => by simp [icaclsSeq]
  | args :: rest, i, acc => by
    simp only [icaclsSeq, List.length_cons]
    cases henv : env i with
    | ok success code so se =>
      cases success with
      | true =>
        simp only [if_true]
        rw [icaclsSeq_failed_iff env rest (i + 1)]
        constructor
        · intro hall d hd
          cases d with
          | zero => rw [Nat.add_zero, henv]; rfl
          | succ d2 =>
            have := hall d2 (by omega)
            rw [show i + (d2 + 1) = i + 1 + d2 by omega]
            exact this
        · intro hall d hd
          have := hall (d + 1) (by omega)
          rw [show i + 1 + d = i + (d + 1) by omega]
          exact this
      | false =>
        simp only [Bool.false_eq_true, if_false]
        constructor
        · intro hnone; cases hnone
        · intro hall
          have := hall 0 (by omega)
          rw [Nat.add_zero, henv] at this
          cases this
    | err e =>
      constructor
      · intro hnone; cases hnone
      · intro hall
        have := hall 0 (by omega)
        rw [Nat.add_zero, henv] at this
        cases this

theorem icaclsSeq_failed_suffix (env : Nat → CmdRes) :
    ∀ (cmds : List (List Str)) (i : Nat) (acc : Str) (m : Str),
      (icaclsSeq env cmds i acc).2.1 = some m →
      ∃ p, m = p ++ (icaclsSeq env cmds i acc).1
  | [], i, acc, m, hm => by simp [icaclsSeq] at hm
  | args :: rest, i, acc, m, hm => by
    simp only [icaclsSeq] at hm ⊢
    cases henv : env i with
    | ok success code so se =>
      rw [henv] at hm
      cases success with
      | true =>
        simp only [if_true] at hm ⊢
        exact icaclsSeq_failed_suffix env rest (i + 1) _ m hm
      | false =>
        simp only [Bool.false_eq_true, if_false] at hm ⊢
        refine ⟨"❌ icacls ".data ++ dbgArgs args ++ " failed with code ".data ++
          intStr (code.getD (-1)) ++ ['\n'], ?_⟩
        cases hm
        simp [failOkMsg, List.append_assoc]
    | err e =>
      rw [henv] at hm
      simp only [] at hm ⊢
      refine ⟨"❌ Failed to run icacls ".data ++ dbgArgs args ++ ": ".data ++
        e ++ ['\n'], ?_⟩
      cases hm
      simp [failErrMsg, List.append_assoc]

instance decGoodOpt (o : Option Str) : Decidable (goodOpt o) := by
  cases o with
  | none => exact isTrue trivial
  | some v => exact inferInstanceAs (Decidable (goodVal v))

theorem applyField_push_name (h : HostEntry) (idx : Nat) (c : Char)
    (hn : h.name ≠ []) :
    (applyField h idx (fun s => s ++ [c])).name ≠ [] := by
  unfold applyField
  split <;> simp_all

theorem applyField_name_of_ne (h : HostEntry) (idx : Nat) (f : Str → Str)
    (hidx : idx ≠ 0) : (applyField h idx f).name = h.name := by
  unfold applyField
  split <;> simp_all

/-! ## Claim theorems -/

/-- C1 (amended): parsing the serialization restores the profile sequence
exactly, provided every set value (the name included) is non-empty,
newline-free, and carries no leading or trailing whitespace.  The original
claim omitted the whitespace condition; `claim1_counterexample` shows it is
needed. -/
theorem claim1_roundtrip (hosts : List HostEntry)
    (hg : ∀ h ∈ hosts, goodEntry h) :
    parse_ssh_config (write_ssh_config_text hosts) = some hosts :=
  parse_write_roundtrip hosts hg

/-- C1 counterexample: the hostname value `" x"` is a non-empty string
without newlines, as the claim requires, yet the round trip returns the
trimmed value `"x"`, not the original profile. -/
theorem claim1_counterexample :
    ¬ (parse_ssh_config (write_ssh_config_text
        [{ mkHostEntry "a".data with hostname := some " x".data }]) =
      some [{ mkHostEntry "a".data with hostname := some " x".data }]) := by
  decide

/-- C1 witness: the `box` profile of the claim serializes to exactly the
stated text and parses back from it. -/
theorem claim1_roundtrip_witness :
    (∀ h ∈ [boxEntry], goodEntry h) ∧
      write_ssh_config_text [boxEntry] =
        "Host box\n    HostName 1.2.3.4\n    User bob\n\n".data ∧
      parse_ssh_config "Host box\n    HostName 1.2.3.4\n    User bob\n\n".data =
        some [boxEntry] := by
  refine ⟨by decide, by decide, ?_⟩
  rw [show ("Host box\n    HostName 1.2.3.4\n    User bob\n\n".data : Str) =
        write_ssh_config_text [boxEntry] from by decide]
  exact claim1_roundtrip [boxEntry] (by decide)

/-- C2 (code bug): with the one-profile store `["a"]` and `selected = 0`,
pressing `'n'` (new entry) and then Enter does not append the buffer — it
overwrites the stored profile at the selected index, because commit decides
replace-vs-append by `selected < hosts.len()` rather than by how the edit
was started.  The store ends as `[new-host]`, the profile `"a"` is gone,
and one persist effect is emitted for the overwritten store. -/
theorem claim2_new_entry_overwrites :
    (handle env0 (handle env0 (AppState.new [hostA]) (Key.char 'n')).1
        Key.enter).1.hosts = [newHost] ∧
      (handle env0 (handle env0 (AppState.new [hostA]) (Key.char 'n')).1
        Key.enter).2 = [Eff.persist [newHost]] ∧
      hostA ∉ (handle env0 (handle env0 (AppState.new [hostA]) (Key.char 'n')).1
        Key.enter).1.hosts := by
  decide

/-- C3 counterexample: starting from the store `["a"]`, the admitted key
sequence `'e'`, Backspace, Enter commits a profile whose name is the empty
string — an empty-named Profile is reachable. -/
theorem claim3_counterexample :
    (handle env0 (handle env0 (handle env0 (AppState.new [hostA])
        (Key.char 'e')).1 Key.backspace).1 Key.enter).1.hosts =
      [mkHostEntry []] ∧ (mkHostEntry ([] : Str)).name = [] := by
  decide

/-- C3 (amended): every profile produced by parsing has a non-empty name,
the new-entry buffer name `"new-host"` is non-empty, and editing keystrokes
preserve non-emptiness of the name — except backspace with the cursor on
the name field (field 0), which can empty it (see
`claim3_counterexample`). -/
theorem claim3_name_nonempty :
    (∀ (s : Str) (hs : List HostEntry), parse_ssh_config s = some hs →
      ∀ h ∈ hs, h.name ≠ []) ∧
    newHost.name ≠ [] ∧
    (∀ (env : Env) (app : AppState) (ed : EditState) (c : Char),
      app.edit_mode = some ed → ed.host.name ≠ [] →
      ∀ ed2, (handle env app (Key.char c)).1.edit_mode = some ed2 →
        ed2.host.name ≠ []) ∧
    (∀ (env : Env) (app : AppState) (ed : EditState),
      app.edit_mode = some ed → ed.host.name ≠ [] → ed.field_index ≠ 0 →
      ∀ ed2, (handle env app Key.backspace).1.edit_mode = some ed2 →
        ed2.host.name ≠ []) := by
  refine ⟨?_, by decide, ?_, ?_⟩
  · intro s hs hp h hmem
    rw [parse_total] at hp
    have hs_eq : hs = parseLinesT (rustLines s) none := by
      exact (Option.some.inj hp).symm
    subst hs_eq
    exact parseT_names_ne_nil (rustLines s) none (by simp) h hmem
  · intro env app ed c hed hn ed2 hed2
    rw [handle_edit_char env app ed c hed] at hed2
    simp only [Option.some.injEq] at hed2
    subst hed2
    exact applyField_push_name ed.host ed.field_index c hn
  · intro env app ed hed hn hidx ed2 hed2
    rw [handle_edit_backspace env app ed hed] at hed2
    simp only [Option.some.injEq] at hed2
    subst hed2
    show (applyField ed.host ed.field_index strPop).name ≠ []
    rw [applyField_name_of_ne ed.host ed.field_index strPop hidx]
    exact hn

/-- C3 witness: concrete instances of the amended claim — a parsed name is
non-empty, and a printable character typed into the name field keeps it
non-empty. -/
theorem claim3_name_nonempty_witness :
    (parse_ssh_config "Host h\n".data = some [mkHostEntry "h".data] ∧
      (mkHostEntry "h".data).name ≠ []) ∧
    ((AppState.new [hostA]).selected = 0 ∧
      ∀ ed2, (handle env0
          { AppState.new [hostA] with
              edit_mode := some { host := hostA, field_index := 0, field_values := [] } }
          (Key.char 'x')).1.edit_mode = some ed2 → ed2.host.name ≠ []) := by
  refine ⟨⟨by decide, ?_⟩, by decide, ?_⟩
  · exact claim3_name_nonempty.1 "Host h".data [mkHostEntry "h".data]
      (by decide) (mkHostEntry "h".data) (by decide)
  · exact claim3_name_nonempty.2.2.1 env0 _ _ 'x' rfl (by decide)

/-- C4: debouncing.  After an admitted key, an identical key arriving less
than 50 ms later is dropped (the state, debounce baseline included, is left
exactly as it was, and no effect is produced), while one arriving 50 ms or
more later is admitted again; and a dropped key changes nothing at all, so
it never becomes the debounce baseline. -/
theorem claim4_debounce :
    (∀ (env : Env) (app : AppState) (k : Key) (t1 t2 : Nat),
      admitKey app k t1 = true → t2 - t1 < 50 →
      step env ((step env app k t1).1) k t2 = ((step env app k t1).1, [])) ∧
    (∀ (env : Env) (app : AppState) (k : Key) (t1 t2 : Nat),
      admitKey app k t1 = true → 50 ≤ t2 - t1 →
      admitKey ((step env app k t1).1) k t2 = true) ∧
    (∀ (env : Env) (app : AppState) (k : Key) (t : Nat),
      admitKey app k t = false → step env app k t = (app, [])) := by
  refine ⟨?_, ?_, ?_⟩
  · intro env app k t1 t2 h1 hlt
    apply step_dropped
    rw [admitKey_second env app k t1 t2 h1, decide_eq_true hlt]
    rfl
  · intro env app k t1 t2 h1 hge
    rw [admitKey_second env app k t1 t2 h1,
      decide_eq_false (by omega : ¬(t2 - t1 < 50))]
    rfl
  · intro env app k t h
    exact step_dropped env app k t h

/-- C4 witness: from a fresh state, `Down` at t=0 is admitted; a second
`Down` at t=10 is dropped leaving the state untouched, while at t=100 it
would be admitted again. -/
theorem claim4_debounce_witness :
    admitKey (AppState.new [hostA]) Key.down 0 = true ∧
      (10 : Nat) - 0 < 50 ∧
      step env0 ((step env0 (AppState.new [hostA]) Key.down 0).1) Key.down 10 =
        ((step env0 (AppState.new [hostA]) Key.down 0).1, []) ∧
      50 ≤ (100 : Nat) - 0 ∧
      admitKey ((step env0 (AppState.new [hostA]) Key.down 0).1) Key.down 100 =
        true :=
  ⟨by decide, by decide,
    claim4_debounce.1 env0 (AppState.new [hostA]) Key.down 0 10 (by decide)
      (by decide),
    by decide,
    claim4_debounce.2.1 env0 (AppState.new [hostA]) Key.down 0 100 (by decide)
      (by decide)⟩

/-- C5: edit isolation.  While in edit mode, any sequence of editing keys
(Tab/Down/Up navigation, printable characters, Backspace) leaves the
profile store untouched and stays in edit mode; Esc then returns to
Browsing with the store exactly as it was when editing began. -/
theorem claim5_edit_isolation :
    ∀ (env : Env) (app : AppState) (ed : EditState),
      app.edit_mode = some ed →
      ∀ ks : List Key, (∀ k ∈ ks, isEditKey k = true) →
        ((ks.foldl (fun a k => (handle env a k).1) app).hosts = app.hosts ∧
          ∃ ed2, (ks.foldl (fun a k => (handle env a k).1) app).edit_mode =
            some ed2) ∧
        (handle env (ks.foldl (fun a k => (handle env a k).1) app)
            Key.esc).1.hosts = app.hosts ∧
        (handle env (ks.foldl (fun a k => (handle env a k).1) app)
            Key.esc).1.edit_mode = none := by
  intro env app ed hed ks hks
  obtain ⟨h1, ed2, hed2⟩ := handle_edit_fold_inv env ks hks app ed hed
  refine ⟨⟨h1, ed2, hed2⟩, ?_, ?_⟩
  · rw [handle_edit_esc env _ ed2 hed2]
    exact h1
  · rw [handle_edit_esc env _ ed2 hed2]

/-- C5 witness: a concrete editing session (navigate, type, delete) over a
one-profile store, then cancel. -/
theorem claim5_edit_isolation_witness :
    ({ AppState.new [hostA] with
        edit_mode := some { host := hostA, field_index := 0,
                            field_values := [] } } : AppState).edit_mode =
      some { host := hostA, field_index := 0, field_values := [] } ∧
    (∀ k ∈ [Key.tab, Key.char 'x', Key.backspace, Key.up],
      isEditKey k = true) ∧
    (([Key.tab, Key.char 'x', Key.backspace, Key.up].foldl
        (fun a k => (handle env0 a k).1)
        { AppState.new [hostA] with
            edit_mode := some { host := hostA, field_index := 0,
                                field_values := [] } }).hosts = [hostA] ∧
      (handle env0 ([Key.tab, Key.char 'x', Key.backspace, Key.up].foldl
          (fun a k => (handle env0 a k).1)
          { AppState.new [hostA] with
              edit_mode := some { host := hostA, field_index := 0,
                                  field_values := [] } }) Key.esc).1.edit_mode =
        none) := by
  refine ⟨rfl, by decide, ?_, ?_⟩
  · exact ((claim5_edit_isolation env0 _ _ rfl _ (by decide)).1).1
  · exact (claim5_edit_isolation env0 _ _ rfl _ (by decide)).2.2

/-- C8: commit always returns to Browsing with the edit retained in the
in-memory store, emits exactly one persist effect for the committed store,
and leaves the status message untouched; the outcome of the file write has
no influence on any of this (the result is identical under any
environment), so a persist failure is silently swallowed. -/
theorem claim8_commit_swallows_persist_failure :
    ∀ (env env2 : Env) (app : AppState) (ed : EditState),
      app.edit_mode = some ed →
      handle env app Key.enter = handle env2 app Key.enter ∧
      (handle env app Key.enter).1.edit_mode = none ∧
      (handle env app Key.enter).1.status_message = app.status_message ∧
      ed.host ∈ (handle env app Key.enter).1.hosts ∧
      (handle env app Key.enter).2 =
        [Eff.persist (handle env app Key.enter).1.hosts] := by
  intro env env2 app ed hed
  rw [handle_edit_enter env app ed hed, handle_edit_enter env2 app ed hed]
  by_cases hsel : app.selected < app.hosts.length
  · simp only [hsel, if_true]
    exact ⟨trivial, trivial, trivial,
      List.mem_set app.hosts app.selected hsel ed.host, trivial⟩
  · simp only [hsel, if_false]
    exact ⟨trivial, trivial, trivial, by simp, trivial⟩

/-- C8 witness: committing an edit of the profile `"a"` renamed in the
buffer, at a concrete state. -/
theorem claim8_commit_witness :
    ({ AppState.new [hostA] with
        edit_mode := some { host := boxEntry, field_index := 0,
                            field_values := [] } } : AppState).edit_mode =
      some { host := boxEntry, field_index := 0, field_values := [] } ∧
    (handle env0 { AppState.new [hostA] with
        edit_mode := some { host := boxEntry, field_index := 0,
                            field_values := [] } } Key.enter).1.edit_mode =
      none ∧
    boxEntry ∈ (handle env0 { AppState.new [hostA] with
        edit_mode := some { host := boxEntry, field_index := 0,
                            field_values := [] } } Key.enter).1.hosts := by
  refine ⟨rfl, ?_, ?_⟩
  · exact (claim8_commit_swallows_persist_failure env0 env0
      { AppState.new [hostA] with
          edit_mode := some { host := boxEntry, field_index := 0, field_values := [] } }
      { host := boxEntry, field_index := 0, field_values := [] } rfl).2.1
  · exact (claim8_commit_swallows_persist_failure env0 env0
      { AppState.new [hostA] with
          edit_mode := some { host := boxEntry, field_index := 0, field_values := [] } }
      { host := boxEntry, field_index := 0, field_values := [] } rfl).2.2.2.1

/-! ## Serialization field set (C6) -/

/-- Substring test (used only to state counterexamples). -/
def containsSub (s pat : Str) : Bool :=
  (List.range (s.length + 1)).any (fun i => isPref pat (s.drop i))

/-- A profile with every field of the data model set. -/
def fullEntry : HostEntry :=
  { name := "h".data, hostname := some "hn".data, user := some "u".data,
    port := some "22".data, identity_file := some "f".data,
    password := some "p".data }

theorem mem_optLine {l pre : Str} {o : Option Str} :
    l ∈ optLine pre o ↔ ∃ v, o = some v ∧ l = pre ++ v := by
  cases o <;> simp [optLine]

/-- C6 counterexample: even with every field of the data model set, the
serialized text contains no `ProxyJump` and no `ForwardAgent` directive —
the program's field set has no such fields, contrary to the claim's field
list.  The full serialization is the six-field block shown. -/
theorem claim6_counterexample :
    containsSub (write_ssh_config_text [fullEntry]) "ProxyJump".data = false ∧
    containsSub (write_ssh_config_text [fullEntry]) "ForwardAgent".data = false ∧
    write_ssh_config_text [fullEntry] =
      ("Host h\n    HostName hn\n    User u\n    Port 22\n" ++
        "    IdentityFile f\n    # Password p\n\n").data := by
  decide

/-- C6 (amended): the serializer emits, for each profile in order, the
host line, then one indented line per set field in the fixed order
hostname, user, port, identity file, password — the password as a
`# Password` comment — then a blank line; unset fields produce no line.
Moreover a set password always yields the annotated comment line, and no
emitted line ever carries a plaintext `Password` directive. -/
theorem claim6_serialization_format :
    (∀ hosts : List HostEntry,
      write_ssh_config_text hosts = serializeSpec hosts) ∧
    (∀ (h : HostEntry) (v : Str), h.password = some v →
      ("    # Password ".data ++ v) ∈ specBlockLines h) ∧
    (∀ (h : HostEntry) (l : Str), l ∈ specBlockLines h →
      isPref "    Password ".data l = false) := by
  refine ⟨write_eq_serializeSpec, ?_, ?_⟩
  · intro h v hv
    simp only [specBlockLines, List.mem_cons, List.mem_append]
    right; right; right; right; right; left
    rw [mem_optLine]
    exact ⟨v, hv, rfl⟩
  · intro h l hl
    simp only [specBlockLines, List.mem_cons, List.mem_append,
      List.not_mem_nil, or_false] at hl
    rcases hl with hl | hl | hl | hl | hl | hl | hl
    · subst hl; rfl
    · obtain ⟨v, _, hl⟩ := mem_optLine.mp hl; subst hl; rfl
    · obtain ⟨v, _, hl⟩ := mem_optLine.mp hl; subst hl; rfl
    · obtain ⟨v, _, hl⟩ := mem_optLine.mp hl; subst hl; rfl
    · obtain ⟨v, _, hl⟩ := mem_optLine.mp hl; subst hl; rfl
    · obtain ⟨v, _, hl⟩ := mem_optLine.mp hl; subst hl; rfl
    · subst hl; rfl

/-- C6 witness: the password-comment membership at the fully-set profile. -/
theorem claim6_serialization_format_witness :
    fullEntry.password = some "p".data ∧
      ("    # Password ".data ++ "p".data) ∈ specBlockLines fullEntry ∧
      write_ssh_config_text [fullEntry] = serializeSpec [fullEntry] :=
  ⟨rfl, claim6_serialization_format.2.1 fullEntry "p".data rfl,
    claim6_serialization_format.1 [fullEntry]⟩

/-- C7: parse totality and tolerance.  Parsing never fails on any input
(the internal unwrap never panics); text whose lines never start a host
declaration parses to the empty sequence; a non-host line is ignored
before the first host declaration, and a line matching no keyword is
ignored anywhere; and a profile still under construction at end of input
is flushed as one extra leading element of the remaining output. -/
theorem claim7_parse_total_tolerant :
    (∀ s : Str, ∃ hs, parse_ssh_config s = some hs) ∧
    (∀ s : Str, (∀ l ∈ rustLines s, isPref "Host ".data (trim l) = false) →
      parse_ssh_config s = some []) ∧
    (∀ (l : Str) (ls : List Str), isPref "Host ".data (trim l) = false →
      parseLinesT (l :: ls) none = parseLinesT ls none) ∧
    (∀ (l : Str) (ls : List Str) (cur : Option HostEntry),
      isPref "Host ".data (trim l) = false → noKeyword (trim l) = true →
      parseLinesT (l :: ls) cur = parseLinesT ls cur) ∧
    (∀ (ls : List Str) (e : HostEntry),
      ∃ e2, parseLinesT ls (some e) = e2 :: parseLinesT ls none) := by
  refine ⟨?_, ?_, ?_, ?_, parseT_flush⟩
  · intro s
    exact ⟨parseLinesT (rustLines s) none, parse_total s⟩
  · intro s h
    rw [parse_total, parseT_no_host (rustLines s) h]
  · intro l ls h
    exact parseT_cons_other_none h ls
  · intro l ls cur h hk
    exact parseT_skip_junk h hk ls cur

/-- C7 witness: concrete instances — parsing junk text succeeds and yields
no profiles, the junk line before a host declaration is skipped, and a
trailing half-built profile is flushed. -/
theorem claim7_parse_total_tolerant_witness :
    (∃ hs, parse_ssh_config "random text\nno hosts\n".data = some hs) ∧
    ((∀ l ∈ rustLines "random text\nno hosts\n".data,
        isPref "Host ".data (trim l) = false) ∧
      parse_ssh_config "random text\nno hosts\n".data = some []) ∧
    (isPref "Host ".data (trim "junk".data) = false ∧
      parseLinesT ["junk".data, "Host h".data] none =
        parseLinesT ["Host h".data] none) ∧
    (noKeyword (trim "junk".data) = true ∧
      parseLinesT ["junk".data] (some boxEntry) =
        parseLinesT [] (some boxEntry)) ∧
    (∃ e2, parseLinesT ["    HostName 9.9.9.9".data] (some boxEntry) =
      e2 :: parseLinesT ["    HostName 9.9.9.9".data] none) := by
  refine ⟨claim7_parse_total_tolerant.1 _, ⟨by decide, ?_⟩, ⟨by decide, ?_⟩,
    ⟨by decide, ?_⟩, ?_⟩
  · exact claim7_parse_total_tolerant.2.1 _ (by decide)
  · exact claim7_parse_total_tolerant.2.2.1 "junk".data ["Host h".data]
      (by decide)
  · exact claim7_parse_total_tolerant.2.2.2.1 "junk".data [] (some boxEntry)
      (by decide) (by decide)
  · exact claim7_parse_total_tolerant.2.2.2.2 ["    HostName 9.9.9.9".data]
      boxEntry

/-- C10: field-keyword matching is a bare prefix match with no separator
required — any suffix after the keyword characters is assigned (trimmed) to
the field; in particular `Username alice` sets `user` to `"name alice"`
and `Porto 22` sets `port` to `"o 22"` instead of being ignored. -/
theorem claim10_bare_prefix_match :
    (∀ (e : HostEntry) (v : Str),
      updateEntry e ("User".data ++ v) = { e with user := some (trim v) }) ∧
    (∀ (e : HostEntry) (v : Str),
      updateEntry e ("Port".data ++ v) = { e with port := some (trim v) }) ∧
    parse_ssh_config "Host h\nUsername alice\nPorto 22\n".data =
      some [{ mkHostEntry "h".data with
                user := some "name alice".data,
                port := some "o 22".data }] :=
  ⟨updateEntry_user, updateEntry_port, by decide⟩

/-- C9 counterexample: the fixed `icacls` operation list has six entries
(reset, inheritance removal, three group removals, and the user grant),
not the five the claim's example speaks of. -/
theorem claim9_counterexample :
    (permCmds ("u:R".data)).length ≠ 5 ∧ (permCmds ("u:R".data)).length = 6 := by
  decide

/-- C9 (amended, six operations): the sequence runs its fixed list of six
operations strictly in order; the number attempted is one more than the
index of the first failing operation (all six when none fails); the
aggregate is a success exactly when all six succeed, the failure message
carries the whole captured output accumulated so far as its suffix, and on
total success the status is the success banner over the combined output. -/
theorem claim9_permission_sequence :
    (∀ g : Str, (permCmds g).length = 6) ∧
    (∀ (env : Nat → CmdRes) (g : Str),
      (icaclsSeq env (permCmds g) 0 []).2.2 =
        (match (List.range 6).find? (fun d => resFails (env (0 + d))) with
         | some d => 0 + d + 1
         | none => 0 + 6)) ∧
    (∀ (env : Nat → CmdRes) (g : Str),
      (icaclsSeq env (permCmds g) 0 []).2.1 = none ↔
        ∀ d < 6, resFails (env (0 + d)) = false) ∧
    (∀ (env : Nat → CmdRes) (g : Str) (m : Str),
      (icaclsSeq env (permCmds g) 0 []).2.1 = some m →
      ∃ p, m = p ++ (icaclsSeq env (permCmds g) 0 []).1) ∧
    (∀ (env : Nat → CmdRes) (idf u : Str),
      (icaclsSeq env (permCmds (u ++ ":R".data)) 0 []).2.1 = none →
      permStatus env idf u = "✔ Permissions fixed for ".data ++ idf ++
        ['\n'] ++ (icaclsSeq env (permCmds (u ++ ":R".data)) 0 []).1) := by
  refine ⟨fun g => rfl, ?_, ?_, ?_, ?_⟩
  · intro env g
    exact icaclsSeq_attempted env (permCmds g) 0 []
  · intro env g
    exact icaclsSeq_failed_iff env (permCmds g) 0 []
  · intro env g m
    exact icaclsSeq_failed_suffix env (permCmds g) 0 [] m
  · intro env idf u hnone
    rw [permStatus]
    simp only [hnone]

/-- The environment of the claim's example: the first two operations
succeed, the third reports a failing exit status. -/
def env3 : Nat → CmdRes := fun i =>
  if i < 2 then CmdRes.ok true (some 0) "ok".data []
  else CmdRes.ok false (some 2) "denied".data []

/-- An environment in which every operation succeeds. -/
def envOK : Nat → CmdRes := fun _ => CmdRes.ok true (some 0) [] []

/-- C9 witness: when the third operation fails, exactly three operations
are attempted and the reported failure message carries the accumulated
output of those three; when all succeed, the aggregate is the success
banner over the combined output of all six. -/
theorem claim9_permission_sequence_witness :
    (icaclsSeq env3 (permCmds ("u:R".data)) 0 []).2.2 = 3 ∧
    (∃ m p, (icaclsSeq env3 (permCmds ("u:R".data)) 0 []).2.1 = some m ∧
      m = p ++ (icaclsSeq env3 (permCmds ("u:R".data)) 0 []).1) ∧
    (icaclsSeq envOK (permCmds ("u".data ++ ":R".data)) 0 []).2.1 = none ∧
    permStatus envOK "f".data "u".data =
      "✔ Permissions fixed for ".data ++ "f".data ++ ['\n'] ++
        (icaclsSeq envOK (permCmds ("u".data ++ ":R".data)) 0 []).1 := by
  refine ⟨?_, ?_, ?_, ?_⟩
  · rw [claim9_permission_sequence.2.1 env3 ("u:R".data)]
    decide
  · obtain ⟨m, hm⟩ : ∃ m,
        (icaclsSeq env3 (permCmds ("u:R".data)) 0 []).2.1 = some m := by
      have := claim9_permission_sequence.2.2.1 env3 ("u:R".data)
      cases hx : (icaclsSeq env3 (permCmds ("u:R".data)) 0 []).2.1 with
      | none =>
        have h2 := (this.mp hx) 2 (by omega)
        rw [show resFails (env3 (0 + 2)) = true from by decide] at h2
        cases h2
      | some m => exact ⟨m, rfl⟩
    obtain ⟨p, hp⟩ := claim9_permission_sequence.2.2.2.1 env3 ("u:R".data) m hm
    exact ⟨m, p, hm, hp⟩
  · rw [claim9_permission_sequence.2.2.1 envOK ("u".data ++ ":R".data)]
    decide
  · apply claim9_permission_sequence.2.2.2.2 envOK "f".data "u".data
    rw [claim9_permission_sequence.2.2.1 envOK ("u".data ++ ":R".data)]
    decide
